import Mathlib

/-!
Verification of the ttyf CLI orchestration core (`ttyf_cli`).

We give a shallow embedding of the pieces the specification talks about:

* the connection list / secret store / credentials file state
  (`St`), mutated through an explicit event trace (`Ev`, `applyEv`),
  so that every intermediate ("reachable") state of a command run is the
  fold of a trace prefix;
* the command handlers `_save_access_token`, `_delete_plaid_item` and
  `_add_plaid_item` from `ttyf_cli/ttyf.py`, as trace-emitting functions
  whose external inputs (user confirmations, Plaid API results, clock,
  bind success) are an explicit environment `Env`;
* the callback server from `ttyf_cli/auth/plaid/callback_server.py`:
  its request routing / latch (`latchStep`) and its polling wait loop
  (`wait_for_callback`), with time measured in polling iterations.
-/

namespace Ttyf

/-! ## Key-value maps (keyring-style stores)

The OS keyring (`AuthHandler`) behaves as a key-value store: `set`
overwrites, `get` finds the current binding, `delete` removes a key and
fails when it is absent.  We model it as an association list where `put`
removes any stale binding before prepending the new one. -/

def kvPut {κ : Type} [DecidableEq κ] {α : Type} (k : κ) (v : α)
    (m : List (κ × α)) : List (κ × α) :=
  (k, v) :: m.filter (fun kv => decide (kv.1 ≠ k))

def kvHas {κ : Type} [DecidableEq κ] {α : Type} (k : κ) (m : List (κ × α)) : Bool :=
  m.any (fun kv => decide (kv.1 = k))

def kvDrop {κ : Type} [DecidableEq κ] {α : Type} (k : κ)
    (m : List (κ × α)) : List (κ × α) :=
  m.filter (fun kv => decide (kv.1 ≠ k))

/-! ## Data model -/

/-- A stored connection record, as written to the connections JSON file by
`_save_access_token`: `id` is the Plaid item id, `name` the friendly name,
`dateAdded` the formatted timestamp. -/
structure Connection where
  id : String
  name : String
  dateAdded : String
deriving DecidableEq

/-- Parsed content of the credentials JSON file: a dict that may or may
not carry the `email` and `phone` keys. -/
structure Creds where
  email : Option String
  phone : Option String
deriving DecidableEq

/-- The persistent state a command run reads and writes: the connections
file, the keyring secrets (item id → access token), the keyring link-token
slots (email → link token), and the credentials file (`none` = missing or
corrupt, i.e. unparseable JSON). -/
structure St where
  connections : List Connection
  secrets : List (String × String)
  linkTokens : List (Option String × String)
  creds : Option Creds
deriving DecidableEq

/-- Events: each constructor is one externally visible side effect of the
Python code, in the order the code performs them. -/
inductive Ev where
  | listenerStart
  | listenerStop
  | linkCreate
  | linkTokenSet (email : Option String) (tok : String)
  | browserOpen
  | credsWrite (email phone : String)
  | secretPut (key val : String)
  | connAppend (c : Connection)
  | secretDel (key : String)
  | connRemove (name : String)
deriving DecidableEq

/-- State effect of a single event.  `listenerStart`, `listenerStop`,
`linkCreate` and `browserOpen` do not touch the persisted state. -/
def applyEv (s : St) : Ev → St
  | .credsWrite e p => { s with creds := some ⟨some e, some p⟩ }
  | .linkTokenSet e t => { s with linkTokens := kvPut e t s.linkTokens }
  | .secretPut k v => { s with secrets := kvPut k v s.secrets }
  | .connAppend c => { s with connections := s.connections ++ [c] }
  | .secretDel k => { s with secrets := kvDrop k s.secrets }
  | .connRemove n => { s with connections := s.connections.eraseP (fun c => decide (c.name = n)) }
  | _ => s

/-- Fold a trace of events over a state. -/
def runTrace (s : St) (tr : List Ev) : St := tr.foldl applyEv s

/-! ## Invariants of the data model -/

/-- Every stored connection record's `id` has a secret-store entry. -/
def secretsCover (s : St) : Prop :=
  ∀ c ∈ s.connections, kvHas c.id s.secrets = true

instance (s : St) : Decidable (secretsCover s) := by
  unfold secretsCover; infer_instance

/-- No two stored connection records share the same `name`. -/
def namesUnique (s : St) : Prop :=
  (s.connections.map Connection.name).Nodup

instance (s : St) : Decidable (namesUnique s) := by
  unfold namesUnique; infer_instance

/-! ## Credential validation (`_setup_user_credentials`, `_has_user_credentials`)

`_setup_user_credentials` validates the email with
`re.match(r"[^@]+@[^@]+\.[^@]+", email)` and the phone with
`re.match(r"^\d{10}$", phone)`.  We translate the two regexes into
executable checks on the character list. -/

/-- Semantics of `re.match(r"[^@]+@[^@]+\.[^@]+", s)`: some prefix of `s`
decomposes as `a ++ "@" ++ b ++ "." ++ c0 ++ rest` with `a`, `b` nonempty
and `@`-free and `c0` a single non-`@` character.  Since `a` is `@`-free,
the matched `@` is the first `@` of the string; the dot may be any dot in
the tail that has a nonempty `@`-free run before it and a non-`@`
character right after it. -/
def isValidEmail (s : String) : Bool :=
  let l := s.toList
  let a := l.takeWhile (fun c => decide (c ≠ '@'))
  let r := l.drop a.length
  match r with
  | '@' :: t =>
      decide (a ≠ []) &&
      (List.range t.length).any (fun i =>
        decide (1 ≤ i) &&
        (t.take i).all (fun c => decide (c ≠ '@')) &&
        decide (t.get? i = some '.') &&
        (match t.get? (i + 1) with
         | some c => decide (c ≠ '@')
         | none => false))
  | _ => false

/-- Semantics of `re.match(r"^\d{10}$", s)`: exactly ten digit characters. -/
def isValidPhone (s : String) : Bool :=
  decide (s.length = 10) && s.toList.all Char.isDigit

/-- `_has_user_credentials`: the credentials file parses and has both the
`email` and `phone` keys.  (No format validation is performed here.) -/
def hasUserCredentials (s : St) : Bool :=
  match s.creds with
  | some c => c.email.isSome && c.phone.isSome
  | none => false

/-- Modelled from `_setup_user_credentials`'s retry loops: given the
stream of values the user types at each prompt, the loop stores the first
email passing `isValidEmail` and the first phone passing `isValidPhone`
(re-prompting on invalid input), or never terminates if no valid input
arrives (`none`). -/
def setupStoredCreds (emails phones : List String) : Option (String × String) :=
  match emails.find? isValidEmail, phones.find? isValidPhone with
  | some e, some p => some (e, p)
  | _, _ => none

/-! ## The command handlers (`ttyf_cli/ttyf.py`)

External inputs of a run: user confirmations, the Plaid API responses,
whether the local port binds, the test-mode flag and the clock.  `none`
for an API field means the call raised. -/

structure Env where
  /-- answer to `_add_plaid_item`'s "Remove the existing connection ...?"
  prompt: `true` iff the stripped, lowercased reply is `"y"`. -/
  confirmsAdd : Bool
  /-- answer to `_delete_plaid_item`'s `formatter.confirm` prompt. -/
  confirmRemoval : Bool
  /-- whether `TCPServer((host, port), ...)` binds; `false` = `OSError`
  (address in use) propagating out of `server.start()`. -/
  bindOk : Bool
  /-- the (valid) email eventually accepted by the setup loop, used when
  the credentials file is absent at the start of `_add_plaid_item`. -/
  inputEmail : String
  /-- the (valid) phone eventually accepted by the setup loop. -/
  inputPhone : String
  /-- `link_token_create` result `(hosted_link_url, link_token)`;
  `none` = the call raised (caught locally, run reports and returns). -/
  createLink : Option (String × String)
  /-- whether the local callback arrives before the 300 s timeout. -/
  callback : Bool
  /-- `link_token_get` result: `none` = the call (or the nested indexing
  of its response) raised; `some none` = falsy `public_token`;
  `some (some t)` = public token `t`. -/
  session : Option (Option String)
  /-- `TTYF_TEST_MODE == "1"`. -/
  testMode : Bool
  /-- `item_public_token_exchange` result `(access_token, item_id)`;
  `none` = the call raised (caught locally, run reports and returns). -/
  exchange : Option (String × String)
  /-- `int(time.time())` rendered as a string (mock item id suffix). -/
  nowEpoch : String
  /-- `time.strftime("%Y-%m-%d %H:%M:%S")` (connection `date_added`). -/
  nowDate : String

inductive DelOutcome where
  | notFound
  | cancelled
  | secretNotFound
  | ok
deriving DecidableEq

inductive AddOutcome where
  | cancelled
  | bindError
  | linkFailed
  | timedOut
  | raised
  | noPublicToken
  | exchangeFailed
  | ok
deriving DecidableEq

/-- `_save_access_token(name, access_token, item_id)`: re-reads the
connections, refuses (no effect) when the name already exists, otherwise
stores the secret in the keyring and then appends the connection record. -/
def save_access_token (name accessToken itemId nowDate : String) (s : St) :
    List Ev :=
  if s.connections.any (fun c => decide (c.name = name)) then []
  else [Ev.secretPut itemId accessToken,
        Ev.connAppend ⟨itemId, name, nowDate⟩]

/-- `_delete_plaid_item(name)`: find the first connection with the name;
report if absent; ask for confirmation; delete the keyring secret
(`PasswordNotFoundError` is reported and aborts before the list is
touched); only then remove the record and rewrite the file. -/
def delete_plaid_item (name : String) (confirm : Bool) (s : St) :
    List Ev × DelOutcome :=
  match s.connections.find? (fun c => decide (c.name = name)) with
  | none => ([], .notFound)
  | some conn =>
      if confirm then
        if kvHas conn.id s.secrets then
          ([Ev.secretDel conn.id, Ev.connRemove name], .ok)
        else ([], .secretNotFound)
      else ([], .cancelled)

/-- Body of `_add_plaid_item`'s `try:` block, entered right after
`server.start()` succeeded.  Returns the events of the body (the
`finally:` clause's `server.stop()` is appended by the caller) and the
outcome.  Raises inside the body are caught by the outer
`except Exception` (outcome `raised`), which still runs the `finally`. -/
def add_plaid_item_body (name : String) (env : Env) (s : St) :
    List Ev × AddOutcome :=
  let setupEvs : List Ev :=
    if hasUserCredentials s then []
    else [Ev.credsWrite env.inputEmail env.inputPhone]
  let s1 := setupEvs.foldl applyEv s
  let email : Option String :=
    match s1.creds with
    | some c => c.email
    | none => none
  match env.createLink with
  | none => (setupEvs ++ [Ev.linkCreate], .linkFailed)
  | some (_hostedUrl, linkToken) =>
      let evs2 := setupEvs ++ [Ev.linkCreate, Ev.linkTokenSet email linkToken,
                               Ev.browserOpen]
      let s2 := runTrace s1 [Ev.linkCreate, Ev.linkTokenSet email linkToken,
                             Ev.browserOpen]
      if ¬ (env.testMode || env.callback) then (evs2, .timedOut)
      else
        match env.session with
        | none => (evs2, .raised)
        | some none => (evs2, .noPublicToken)
        | some (some _publicToken) =>
            let exch : Option (String × String) :=
              if env.testMode then
                some ("mock-access-token-12345", "mock-item-id-" ++ env.nowEpoch)
              else env.exchange
            match exch with
            | none => (evs2, .exchangeFailed)
            | some (accessToken, itemId) =>
                (evs2 ++ save_access_token name accessToken itemId env.nowDate s2,
                 .ok)

/-- `_add_plaid_item(name)`: duplicate-name check (decline ⇒ abort with no
side effects; accept ⇒ run `_delete_plaid_item`, whose own refusals are
ignored), then `server.start()` (bind failure propagates before any
listener exists), then the `try`-body with `server.stop()` in `finally`. -/
def add_plaid_item (name : String) (env : Env) (s : St) :
    List Ev × AddOutcome :=
  let pre : List Ev :=
    match s.connections.find? (fun c => decide (c.name = name)) with
    | some _ =>
        if env.confirmsAdd then (delete_plaid_item name env.confirmRemoval s).1
        else []
    | none => []
  match s.connections.find? (fun c => decide (c.name = name)) with
  | some _ =>
      if env.confirmsAdd then
        if env.bindOk then
          let body := add_plaid_item_body name env (runTrace s pre)
          (pre ++ Ev.listenerStart :: (body.1 ++ [Ev.listenerStop]), body.2)
        else (pre, .bindError)
      else ([], .cancelled)
  | none =>
      if env.bindOk then
        let body := add_plaid_item_body name env s
        (Ev.listenerStart :: (body.1 ++ [Ev.listenerStop]), body.2)
      else ([], .bindError)

/-- Final state of an `add` run. -/
def addState (name : String) (env : Env) (s : St) : St :=
  runTrace s (add_plaid_item name env s).1

/-- Final state of a `delete` run. -/
def deleteState (name : String) (confirm : Bool) (s : St) : St :=
  runTrace s (delete_plaid_item name confirm s).1

/-! ## The callback server (`ttyf_cli/auth/plaid/callback_server.py`)

Requests are modelled by their request target string; `do_GET` routes on
`urllib.parse.urlparse(self.path).path`, i.e. the characters before the
first `?` or `#`.  The only registered route is `/oauth-callback`, whose
handler sets `_oauth_complete` under the lock; every other path gets a
404 and leaves the latch alone. -/

def recognizedRoute : String := "/oauth-callback"

/-- `urlparse(target).path`: the request target up to the first query or
fragment delimiter. -/
def parsePath (target : String) : String :=
  ⟨target.toList.takeWhile (fun c => decide (c ≠ '?' ∧ c ≠ '#'))⟩

/-- Effect of one handled GET request on the latch (`_oauth_complete`). -/
def latchStep (latch : Bool) (target : String) : Bool :=
  if parsePath target = recognizedRoute then true else latch

/-- Latch value after the server (whose latch currently reads `latch`)
has handled the requests `targets` in order. -/
def latchAfter (latch : Bool) (targets : List String) : Bool :=
  targets.foldl latchStep latch

/-- Latch values observed over a request sequence, starting from a fresh
latch (`__init__` sets `_oauth_complete = False`). -/
def latchStates (targets : List String) : List Bool :=
  targets.scanl latchStep false

/-- Number of `false → true` transitions in a sequence of latch values. -/
def riseCount : List Bool → Nat
  | a :: b :: rest => (if a = false ∧ b = true then 1 else 0) + riseCount (b :: rest)
  | _ => 0

/-! ## The polling wait loop (`wait_for_callback`)

Time is measured in polling iterations: the loop body runs at instants
`0, pollInterval, 2 * pollInterval, …` seconds after the wait began
(`pollInterval = 0.5`, from `time.sleep(0.5)`).  `sig k` is the value
`self.is_oauth_complete` reads at iteration `k`; the timeout comparison
`time.time() - start_time > timeout_seconds` becomes
`k * pollInterval > timeout`.  The function returns the result together
with the iteration index at which it returned. -/

def pollInterval : ℚ := 1 / 2

def waitAux (sig : ℕ → Bool) (timeout : ℚ) (k : ℕ) : Bool × ℕ :=
  if sig k then (true, k)
  else if (k : ℚ) * pollInterval > timeout then (false, k)
  else waitAux sig timeout (k + 1)
termination_by (⌈timeout / pollInterval⌉ + 1 - (k : ℤ)).toNat
decreasing_by
  rename_i hsig htime
  clear hsig
  have hk : (k : ℚ) * pollInterval ≤ timeout := not_lt.mp htime
  have hp : (0 : ℚ) < pollInterval := by norm_num [pollInterval]
  have hk2 : (k : ℚ) ≤ timeout / pollInterval := (le_div_iff₀ hp).mpr hk
  have hk3 : (k : ℚ) ≤ (⌈timeout / pollInterval⌉ : ℚ) :=
    hk2.trans (Int.le_ceil _)
  have hk4 : (k : ℤ) ≤ ⌈timeout / pollInterval⌉ := by exact_mod_cast hk3
  omega

/-- `wait_for_callback(timeout_seconds)`: in test mode, sleep one second
(two polling intervals), set the latch and return true; otherwise poll
`is_oauth_complete` every `pollInterval`, returning true as soon as it is
set and false once the elapsed time exceeds the timeout.  The second
component is the iteration index at which the loop returned. -/
def wait_for_callback (testMode : Bool) (sig : ℕ → Bool) (timeout : ℚ) :
    Bool × ℕ :=
  if testMode then (true, 2)
  else waitAux sig timeout 0

/-! ## Generic trace machinery -/

/-- `stepsPreserve P s tr`: along the run of `tr` from `s`, the state
after every single event satisfies `P`. -/
def stepsPreserve (P : St → Prop) : St → List Ev → Prop
  | _, [] => True
  | s, e :: tr => P (applyEv s e) ∧ stepsPreserve P (applyEv s e) tr

theorem stepsPreserve_append {P : St → Prop} {s : St} {t1 t2 : List Ev} :
    stepsPreserve P s (t1 ++ t2) ↔
      stepsPreserve P s t1 ∧ stepsPreserve P (t1.foldl applyEv s) t2 := by
  induction t1 generalizing s with
  | nil => simp [stepsPreserve]
  | cons e t1 ih => simp [stepsPreserve, ih, and_assoc]

theorem preserve_take {P : St → Prop} {s : St} {tr : List Ev}
    (h0 : P s) (h : stepsPreserve P s tr) :
    ∀ n, P ((tr.take n).foldl applyEv s) := by
  induction tr generalizing s with
  | nil => intro n; simpa using h0
  | cons e tr ih =>
      intro n
      cases n with
      | zero => simpa using h0
      | succ n => simpa using ih h.1 h.2 n

theorem stepsPreserve_full {P : St → Prop} {s : St} {tr : List Ev}
    (h0 : P s) (h : stepsPreserve P s tr) : P (tr.foldl applyEv s) := by
  have := preserve_take h0 h tr.length
  simpa using this

/-! ## Key-value store lemmas -/

theorem kvHas_kvPut {κ α : Type} [DecidableEq κ] (k i : κ) (v : α)
    (m : List (κ × α)) :
    kvHas k (kvPut i v m) = (decide (i = k) || kvHas k m) := by
  induction m with
  | nil => simp [kvHas, kvPut]
  | cons a m ih =>
      by_cases hai : a.1 = i
      · by_cases hik : i = k <;>
          simp_all [kvHas, kvPut, List.filter_cons, List.any_cons]
      · by_cases hak : a.1 = k <;> by_cases hik : i = k <;>
          simp_all [kvHas, kvPut, List.filter_cons, List.any_cons]

theorem kvHas_kvPut_self {κ α : Type} [DecidableEq κ] (k : κ) (v : α)
    (m : List (κ × α)) : kvHas k (kvPut k v m) = true := by
  simp [kvHas_kvPut]

theorem kvHas_kvPut_of_kvHas {κ α : Type} [DecidableEq κ] {k : κ}
    {m : List (κ × α)} (i : κ) (v : α) (h : kvHas k m = true) :
    kvHas k (kvPut i v m) = true := by
  simp [kvHas_kvPut, h]

/-! ## Single-event invariant lemmas -/

theorem applyEv_listenerStart (s : St) : applyEv s .listenerStart = s := rfl

theorem applyEv_listenerStop (s : St) : applyEv s .listenerStop = s := rfl

theorem applyEv_linkCreate (s : St) : applyEv s .linkCreate = s := rfl

theorem applyEv_browserOpen (s : St) : applyEv s .browserOpen = s := rfl

theorem secretsCover_credsWrite {s : St} (e p : String)
    (h : secretsCover s) : secretsCover (applyEv s (.credsWrite e p)) := h

theorem secretsCover_linkTokenSet {s : St} (e : Option String) (t : String)
    (h : secretsCover s) : secretsCover (applyEv s (.linkTokenSet e t)) := h

theorem secretsCover_secretPut {s : St} (k v : String)
    (h : secretsCover s) : secretsCover (applyEv s (.secretPut k v)) := by
  intro c hc
  exact kvHas_kvPut_of_kvHas k v (h c hc)

theorem secretsCover_put_append {s : St} (i v nm d : String)
    (h : secretsCover s) :
    secretsCover (applyEv (applyEv s (.secretPut i v))
      (.connAppend ⟨i, nm, d⟩)) := by
  intro c hc
  simp only [applyEv, List.mem_append, List.mem_singleton] at hc ⊢
  rcases hc with hc | hc
  · exact kvHas_kvPut_of_kvHas i v (h c hc)
  · subst hc; exact kvHas_kvPut_self i v s.secrets

theorem namesUnique_credsWrite {s : St} (e p : String)
    (h : namesUnique s) : namesUnique (applyEv s (.credsWrite e p)) := h

theorem namesUnique_linkTokenSet {s : St} (e : Option String) (t : String)
    (h : namesUnique s) : namesUnique (applyEv s (.linkTokenSet e t)) := h

theorem namesUnique_secretPut {s : St} (k v : String)
    (h : namesUnique s) : namesUnique (applyEv s (.secretPut k v)) := h

theorem namesUnique_secretDel {s : St} (k : String)
    (h : namesUnique s) : namesUnique (applyEv s (.secretDel k)) := h

theorem namesUnique_connRemove {s : St} (n : String)
    (h : namesUnique s) : namesUnique (applyEv s (.connRemove n)) := by
  unfold namesUnique at h ⊢
  exact ((List.eraseP_sublist _).map Connection.name).nodup h

theorem namesUnique_connAppend {s : St} {nm : String} (i d : String)
    (hguard : s.connections.any (fun c => decide (c.name = nm)) = false)
    (h : namesUnique s) :
    namesUnique (applyEv s (.connAppend ⟨i, nm, d⟩)) := by
  unfold namesUnique at h ⊢
  simp only [applyEv, List.map_append, List.map_cons, List.map_nil]
  rw [List.nodup_append]
  refine ⟨h, List.nodup_singleton _, ?_⟩
  intro x hx
  simp only [List.mem_map] at hx
  obtain ⟨c, hc, rfl⟩ := hx
  simp only [List.any_eq_false, decide_eq_true_eq] at hguard
  simp only [List.mem_singleton]
  intro heq
  exact hguard c hc heq

/-! ## Write-ordering within a trace -/

/-- In the trace, every connection-record append is preceded by a
secret-store write of the same item id. -/
def putBeforeAppend (tr : List Ev) : Prop :=
  ∀ (k : ℕ) (c : Connection), tr[k]? = some (Ev.connAppend c) →
    ∃ (j : ℕ) (v : String), j < k ∧ tr[j]? = some (Ev.secretPut c.id v)

theorem putBeforeAppend_of_no_append {tr : List Ev}
    (h : ∀ c : Connection, Ev.connAppend c ∉ tr) : putBeforeAppend tr := by
  intro k c hk
  exact absurd (List.getElem?_mem hk) (h c)

theorem putBeforeAppend_structured (l₁ : List Ev) (i v nm d : String)
    (l₂ : List Ev)
    (h1 : ∀ c : Connection, Ev.connAppend c ∉ l₁)
    (h2 : ∀ c : Connection, Ev.connAppend c ∉ l₂) :
    putBeforeAppend (l₁ ++ Ev.secretPut i v :: Ev.connAppend ⟨i, nm, d⟩ :: l₂) := by
  intro k c hk
  have hmem : Ev.connAppend c ∈
      l₁ ++ Ev.secretPut i v :: Ev.connAppend ⟨i, nm, d⟩ :: l₂ :=
    List.getElem?_mem hk
  have hc : c = ⟨i, nm, d⟩ := by
    simp only [List.mem_append, List.mem_cons] at hmem
    rcases hmem with hm | hm | hm | hm
    · exact absurd hm (h1 c)
    · exact absurd hm (by simp)
    · exact Ev.connAppend.inj hm
    · exact absurd hm (h2 c)
  have hklen : l₁.length < k := by
    by_contra hle
    push_neg at hle
    rcases lt_or_eq_of_le hle with hlt | heq
    · rw [List.getElem?_append_left hlt] at hk
      exact absurd (List.getElem?_mem hk) (h1 c)
    · subst heq
      rw [List.getElem?_append_right (le_refl _)] at hk
      simp at hk
  refine ⟨l₁.length, v, hklen, ?_⟩
  rw [List.getElem?_append_right (le_refl _)]
  simp [hc]

/-! ## Simp forms of the single-event lemmas -/

attribute [simp] applyEv_listenerStart applyEv_listenerStop
  applyEv_linkCreate applyEv_browserOpen

@[simp] theorem secretsCover_applyEv_credsWrite {s : St} {e p : String} :
    secretsCover (applyEv s (.credsWrite e p)) ↔ secretsCover s := Iff.rfl

@[simp] theorem secretsCover_applyEv_linkTokenSet {s : St}
    {e : Option String} {t : String} :
    secretsCover (applyEv s (.linkTokenSet e t)) ↔ secretsCover s := Iff.rfl

@[simp] theorem namesUnique_applyEv_credsWrite {s : St} {e p : String} :
    namesUnique (applyEv s (.credsWrite e p)) ↔ namesUnique s := Iff.rfl

@[simp] theorem namesUnique_applyEv_linkTokenSet {s : St}
    {e : Option String} {t : String} :
    namesUnique (applyEv s (.linkTokenSet e t)) ↔ namesUnique s := Iff.rfl

@[simp] theorem namesUnique_applyEv_secretPut {s : St} {k v : String} :
    namesUnique (applyEv s (.secretPut k v)) ↔ namesUnique s := Iff.rfl

@[simp] theorem namesUnique_applyEv_secretDel {s : St} {k : String} :
    namesUnique (applyEv s (.secretDel k)) ↔ namesUnique s := Iff.rfl

@[simp] theorem connections_applyEv_credsWrite {s : St} {e p : String} :
    (applyEv s (.credsWrite e p)).connections = s.connections := rfl

@[simp] theorem connections_applyEv_linkTokenSet {s : St}
    {e : Option String} {t : String} :
    (applyEv s (.linkTokenSet e t)).connections = s.connections := rfl

@[simp] theorem connections_applyEv_secretPut {s : St} {k v : String} :
    (applyEv s (.secretPut k v)).connections = s.connections := rfl

/-! ## Step-preservation of the invariants along each handler -/

theorem delete_steps_cover_free (name : String) (confirm : Bool) (s : St) :
    ∀ c : Connection, Ev.connAppend c ∉ (delete_plaid_item name confirm s).1 := by
  intro c
  unfold delete_plaid_item
  cases hf : s.connections.find? (fun c => decide (c.name = name)) with
  | none => simp
  | some conn =>
      by_cases hcf : confirm <;>
        by_cases hh : kvHas conn.id s.secrets <;>
          simp [hcf, hh]

theorem delete_no_listener (name : String) (confirm : Bool) (s : St) :
    Ev.listenerStart ∉ (delete_plaid_item name confirm s).1 := by
  unfold delete_plaid_item
  cases hf : s.connections.find? (fun c => decide (c.name = name)) with
  | none => simp
  | some conn =>
      by_cases hcf : confirm <;>
        by_cases hh : kvHas conn.id s.secrets <;>
          simp [hcf, hh]

theorem delete_steps_names (name : String) (confirm : Bool) (s : St)
    (h : namesUnique s) :
    stepsPreserve namesUnique s (delete_plaid_item name confirm s).1 := by
  unfold delete_plaid_item
  cases hf : s.connections.find? (fun c => decide (c.name = name)) with
  | none => simp [stepsPreserve]
  | some conn =>
      by_cases hcf : confirm <;> by_cases hh : kvHas conn.id s.secrets <;>
        simp [hcf, hh, stepsPreserve]
      exact ⟨h, namesUnique_connRemove name h⟩

theorem body_steps_cover (name : String) (env : Env) (s : St)
    (h : secretsCover s) :
    stepsPreserve secretsCover s (add_plaid_item_body name env s).1 := by
  obtain ⟨ca, cr, bo, ie, ip, cl, cb, ses, tm, ex, ne, nd⟩ := env
  cases hcred : hasUserCredentials s <;>
    rcases cl with _ | ⟨url, tok⟩ <;>
    cases tm <;>
    cases cb <;>
    rcases ses with _ | (_ | pt) <;>
    rcases ex with _ | ⟨atk, iid⟩ <;>
    simp_all [add_plaid_item_body, save_access_token, stepsPreserve]
  all_goals
    (repeat' split) <;> (try simp [stepsPreserve])
  all_goals
    exact ⟨secretsCover_secretPut _ _ (by simpa using h),
           secretsCover_put_append _ _ _ _ (by simpa using h)⟩

/-- Executable check for `putBeforeAppend`: scan the trace keeping the
set of item ids whose secret has been written; every record append must
find its id already written. -/
def pbaAux (seen : List String) : List Ev → Bool
  | [] => true
  | (Ev.secretPut k _) :: tr => pbaAux (k :: seen) tr
  | (Ev.connAppend c) :: tr => seen.contains c.id && pbaAux seen tr
  | _ :: tr => pbaAux seen tr

theorem pbaAux_sound (tr : List Ev) :
    ∀ seen : List String, pbaAux seen tr = true →
    ∀ (k : ℕ) (c : Connection), tr[k]? = some (Ev.connAppend c) →
      c.id ∈ seen ∨
        ∃ (j : ℕ) (v : String), j < k ∧ tr[j]? = some (Ev.secretPut c.id v) := by
  induction tr with
  | nil => intro seen _ k c hk; simp at hk
  | cons e tr ih =>
      intro seen hp k c hk
      cases k with
      | zero =>
          simp only [List.getElem?_cons_zero, Option.some_inj] at hk
          subst hk
          simp only [pbaAux, Bool.and_eq_true] at hp
          exact Or.inl (List.mem_of_elem_eq_true hp.1)
      | succ k =>
          simp only [List.getElem?_cons_succ] at hk
          cases e with
          | secretPut k' v' =>
              have hp' : pbaAux (k' :: seen) tr = true := hp
              rcases ih (k' :: seen) hp' k c hk with hmem | ⟨j, v, hj, hjv⟩
              · rcases List.mem_cons.mp hmem with heq | hmem
                · exact Or.inr ⟨0, v', Nat.succ_pos k, by simp [heq]⟩
                · exact Or.inl hmem
              · exact Or.inr ⟨j + 1, v, Nat.succ_lt_succ hj, by simpa using hjv⟩
          | connAppend c' =>
              have hp' : pbaAux seen tr = true := by
                simp only [pbaAux, Bool.and_eq_true] at hp
                exact hp.2
              rcases ih seen hp' k c hk with hmem | ⟨j, v, hj, hjv⟩
              · exact Or.inl hmem
              · exact Or.inr ⟨j + 1, v, Nat.succ_lt_succ hj, by simpa using hjv⟩
          | listenerStart =>
              rcases ih seen hp k c hk with hmem | ⟨j, v, hj, hjv⟩
              · exact Or.inl hmem
              · exact Or.inr ⟨j + 1, v, Nat.succ_lt_succ hj, by simpa using hjv⟩
          | listenerStop =>
              rcases ih seen hp k c hk with hmem | ⟨j, v, hj, hjv⟩
              · exact Or.inl hmem
              · exact Or.inr ⟨j + 1, v, Nat.succ_lt_succ hj, by simpa using hjv⟩
          | linkCreate =>
              rcases ih seen hp k c hk with hmem | ⟨j, v, hj, hjv⟩
              · exact Or.inl hmem
              · exact Or.inr ⟨j + 1, v, Nat.succ_lt_succ hj, by simpa using hjv⟩
          | linkTokenSet e' t' =>
              rcases ih seen hp k c hk with hmem | ⟨j, v, hj, hjv⟩
              · exact Or.inl hmem
              · exact Or.inr ⟨j + 1, v, Nat.succ_lt_succ hj, by simpa using hjv⟩
          | browserOpen =>
              rcases ih seen hp k c hk with hmem | ⟨j, v, hj, hjv⟩
              · exact Or.inl hmem
              · exact Or.inr ⟨j + 1, v, Nat.succ_lt_succ hj, by simpa using hjv⟩
          | credsWrite e' p' =>
              rcases ih seen hp k c hk with hmem | ⟨j, v, hj, hjv⟩
              · exact Or.inl hmem
              · exact Or.inr ⟨j + 1, v, Nat.succ_lt_succ hj, by simpa using hjv⟩
          | secretDel k' =>
              rcases ih seen hp k c hk with hmem | ⟨j, v, hj, hjv⟩
              · exact Or.inl hmem
              · exact Or.inr ⟨j + 1, v, Nat.succ_lt_succ hj, by simpa using hjv⟩
          | connRemove n' =>
              rcases ih seen hp k c hk with hmem | ⟨j, v, hj, hjv⟩
              · exact Or.inl hmem
              · exact Or.inr ⟨j + 1, v, Nat.succ_lt_succ hj, by simpa using hjv⟩

theorem putBeforeAppend_of_pbaAux {tr : List Ev}
    (h : pbaAux [] tr = true) : putBeforeAppend tr := by
  intro k c hk
  rcases pbaAux_sound tr [] h k c hk with hmem | hex
  · simp at hmem
  · exact hex

/-- The secret-store keys already written, threaded through a trace. -/
def pbaSeen (seen : List String) : List Ev → List String
  | [] => seen
  | (Ev.secretPut k _) :: tr => pbaSeen (k :: seen) tr
  | _ :: tr => pbaSeen seen tr

theorem pbaAux_append (seen : List String) (t1 t2 : List Ev) :
    pbaAux seen (t1 ++ t2) =
      (pbaAux seen t1 && pbaAux (pbaSeen seen t1) t2) := by
  induction t1 generalizing seen with
  | nil => simp [pbaAux, pbaSeen]
  | cons e t1 ih =>
      cases e <;> simp [pbaAux, pbaSeen, ih, Bool.and_assoc]

theorem save_pba (name atk iid nd : String) (s : St) (seen : List String) :
    pbaAux seen (save_access_token name atk iid nd s) = true := by
  unfold save_access_token
  split
  · simp [pbaAux]
  · simp [pbaAux, List.contains_cons]

theorem delete_pba (name : String) (confirm : Bool) (s : St)
    (seen : List String) :
    pbaAux seen (delete_plaid_item name confirm s).1 = true := by
  unfold delete_plaid_item
  (repeat' split) <;> simp [pbaAux]

theorem body_pba (name : String) (env : Env) (s : St) (seen : List String) :
    pbaAux seen (add_plaid_item_body name env s).1 = true := by
  unfold add_plaid_item_body
  (repeat' split) <;>
    rcases hx : env.exchange with _ | ⟨atk2, iid2⟩ <;>
    simp [hx, pbaAux, pbaAux_append, save_pba]

theorem add_pba (name : String) (env : Env) (s : St) :
    pbaAux [] (add_plaid_item name env s).1 = true := by
  unfold add_plaid_item
  (repeat' split) <;>
    simp [pbaAux, pbaAux_append, body_pba, delete_pba]

theorem namesUnique_connAppend_all {s : St} {nm : String} (i d : String)
    (hguard : ∀ c ∈ s.connections, ¬ c.name = nm)
    (h : namesUnique s) :
    namesUnique (applyEv s (.connAppend ⟨i, nm, d⟩)) := by
  refine namesUnique_connAppend i d ?_ h
  rw [List.any_eq_false]
  intro c hc
  simpa using hguard c hc

theorem body_steps_names (name : String) (env : Env) (s : St)
    (h : namesUnique s) :
    stepsPreserve namesUnique s (add_plaid_item_body name env s).1 := by
  obtain ⟨ca, cr, bo, ie, ip, cl, cb, ses, tm, ex, ne, nd⟩ := env
  cases hcred : hasUserCredentials s <;>
    rcases cl with _ | ⟨url, tok⟩ <;>
    cases tm <;>
    cases cb <;>
    rcases ses with _ | (_ | pt) <;>
    rcases ex with _ | ⟨atk, iid⟩ <;>
    simp_all [add_plaid_item_body, save_access_token, stepsPreserve]
  all_goals
    (repeat' split) <;> (try simp [stepsPreserve])
  all_goals (
    rename_i hguard
    push_neg at hguard
    simp only [runTrace, List.foldl_cons, List.foldl_nil, applyEv_linkCreate,
      applyEv_browserOpen, connections_applyEv_linkTokenSet,
      connections_applyEv_credsWrite] at hguard
    refine ⟨by simpa using h, namesUnique_connAppend_all _ _ ?_ (by simpa using h)⟩
    intro c hc
    simp only [connections_applyEv_secretPut, connections_applyEv_linkTokenSet,
      connections_applyEv_credsWrite] at hc
    exact hguard c hc)

theorem add_steps_cover (name : String) (env : Env) (s : St)
    (hf : s.connections.find? (fun c => decide (c.name = name)) = none)
    (h : secretsCover s) :
    stepsPreserve secretsCover s (add_plaid_item name env s).1 := by
  unfold add_plaid_item
  simp only [hf]
  by_cases hb : env.bindOk
  · simp only [hb, if_true]
    refine ⟨by simpa using h, ?_⟩
    rw [applyEv_listenerStart, stepsPreserve_append]
    refine ⟨body_steps_cover name env s h, ?_⟩
    have hfull := stepsPreserve_full h (body_steps_cover name env s h)
    exact ⟨by simpa using hfull, trivial⟩
  · simp [hb, stepsPreserve]

theorem add_steps_names (name : String) (env : Env) (s : St)
    (h : namesUnique s) :
    stepsPreserve namesUnique s (add_plaid_item name env s).1 := by
  unfold add_plaid_item
  cases hf : s.connections.find? (fun c => decide (c.name = name)) with
  | none =>
      by_cases hb : env.bindOk
      · simp only [hb, if_true]
        refine ⟨by simpa using h, ?_⟩
        rw [applyEv_listenerStart, stepsPreserve_append]
        refine ⟨body_steps_names name env s h, ?_⟩
        have hfull := stepsPreserve_full h (body_steps_names name env s h)
        exact ⟨by simpa using hfull, trivial⟩
      · simp [hb, stepsPreserve]
  | some conn =>
      by_cases hca : env.confirmsAdd
      · by_cases hb : env.bindOk
        · simp only [hca, hb, if_true]
          rw [stepsPreserve_append]
          have hpre := delete_steps_names name env.confirmRemoval s h
          refine ⟨hpre, ?_⟩
          have h1 : namesUnique
              ((delete_plaid_item name env.confirmRemoval s).1.foldl applyEv s) :=
            stepsPreserve_full h hpre
          refine ⟨by simpa using h1, ?_⟩
          rw [applyEv_listenerStart, stepsPreserve_append]
          have hbody := body_steps_names name env
            (runTrace s (delete_plaid_item name env.confirmRemoval s).1) h1
          refine ⟨hbody, ?_⟩
          have hfull := stepsPreserve_full h1 hbody
          exact ⟨by simpa using hfull, trivial⟩
        · simp only [hca, hb, if_false, if_true]
          exact delete_steps_names name env.confirmRemoval s h
      · simp [hca, stepsPreserve]

theorem add_trace_ends_with_stop (name : String) (env : Env) (s : St)
    (h : Ev.listenerStart ∈ (add_plaid_item name env s).1) :
    (add_plaid_item name env s).1.getLast? = some Ev.listenerStop := by
  unfold add_plaid_item at h ⊢
  cases hf : s.connections.find? (fun c => decide (c.name = name)) with
  | none =>
      by_cases hb : env.bindOk
      · simp only [hb, if_true]
        have : Ev.listenerStart ::
            ((add_plaid_item_body name env s).1 ++ [Ev.listenerStop]) =
            (Ev.listenerStart :: (add_plaid_item_body name env s).1) ++
              [Ev.listenerStop] := by simp
        rw [this, List.getLast?_concat]
      · rw [hf] at h
        simp [hb] at h
  | some conn =>
      by_cases hca : env.confirmsAdd
      · by_cases hb : env.bindOk
        · simp only [hf, hca, hb, if_true]
          rw [List.getLast?_append_of_ne_nil _ (by simp)]
          have : Ev.listenerStart ::
              ((add_plaid_item_body name env
                  (runTrace s (delete_plaid_item name env.confirmRemoval s).1)).1 ++
                [Ev.listenerStop]) =
              (Ev.listenerStart ::
                (add_plaid_item_body name env
                  (runTrace s (delete_plaid_item name env.confirmRemoval s).1)).1) ++
                [Ev.listenerStop] := by simp
          rw [this, List.getLast?_concat]
        · rw [hf] at h
          simp only [hca, hb, if_false, if_true] at h
          exact absurd h (delete_no_listener name env.confirmRemoval s)
      · rw [hf] at h
        simp [hca] at h

/-! ## Wait-loop lemmas -/

theorem pollInterval_pos : (0 : ℚ) < pollInterval := by norm_num [pollInterval]

theorem waitAux_never (sig : ℕ → Bool) (τ : ℚ) (hs : ∀ k, sig k = false) :
    ∀ k : ℕ, ((k : ℚ) * pollInterval ≤ τ + pollInterval) →
      (waitAux sig τ k).1 = false ∧
      (((waitAux sig τ k).2 : ℚ) * pollInterval ≤ τ + pollInterval) := by
  apply waitAux.induct sig τ
    (motive := fun k => ((k : ℚ) * pollInterval ≤ τ + pollInterval) →
      (waitAux sig τ k).1 = false ∧
      (((waitAux sig τ k).2 : ℚ) * pollInterval ≤ τ + pollInterval))
  · intro x hx
    rw [hs x] at hx
    exact absurd hx (by simp)
  · intro x hsx htx hk
    rw [waitAux]
    simp only [hs x, Bool.false_eq_true, if_false, htx, if_true]
    exact ⟨trivial, hk⟩
  · intro x hsx htx ih hk
    rw [waitAux]
    simp only [hs x, Bool.false_eq_true, if_false, htx, if_true]
    apply ih
    have hx : (x : ℚ) * pollInterval ≤ τ := not_lt.mp htx
    push_cast
    nlinarith [pollInterval_pos]

theorem waitAux_signaled (sig : ℕ → Bool) (τ t : ℚ) (htτ : t ≤ τ)
    (hs : ∀ k : ℕ, t ≤ (k : ℚ) * pollInterval → sig k = true) :
    ∀ k : ℕ, ((k : ℚ) * pollInterval ≤ t + pollInterval) →
      (waitAux sig τ k).1 = true ∧
      (((waitAux sig τ k).2 : ℚ) * pollInterval ≤ t + pollInterval) := by
  apply waitAux.induct sig τ
    (motive := fun k => ((k : ℚ) * pollInterval ≤ t + pollInterval) →
      (waitAux sig τ k).1 = true ∧
      (((waitAux sig τ k).2 : ℚ) * pollInterval ≤ t + pollInterval))
  · intro x hsx hk
    rw [waitAux]
    simp only [hsx, if_true]
    have hxt : (x : ℚ) * pollInterval ≤ t + pollInterval := hk
    exact ⟨trivial, hxt⟩
  · intro x hsx htx hk
    exfalso
    have hlt : (x : ℚ) * pollInterval < t := by
      by_contra hge
      exact hsx (hs x (not_lt.mp hge))
    exact absurd htx (not_lt.mpr (le_trans (le_of_lt hlt) htτ))
  · intro x hsx htx ih hk
    rw [waitAux]
    simp only [hsx, Bool.false_eq_true, if_false, htx, if_true]
    apply ih
    have hlt : (x : ℚ) * pollInterval < t := by
      by_contra hge
      exact hsx (hs x (not_lt.mp hge))
    push_cast
    linarith

/-! ## Latch lemmas -/

theorem latchStep_true (r : String) : latchStep true r = true := by
  unfold latchStep
  split <;> rfl

theorem latchAfter_true (targets : List String) :
    latchAfter true targets = true := by
  induction targets with
  | nil => rfl
  | cons r rs ih =>
      unfold latchAfter at ih ⊢
      rw [List.foldl_cons, latchStep_true]
      exact ih

theorem riseCount_scanl_true (targets : List String) :
    riseCount (targets.scanl latchStep true) = 0 := by
  induction targets with
  | nil => rfl
  | cons r rs ih =>
      rw [List.scanl_cons, latchStep_true]
      cases rs with
      | nil => rfl
      | cons r' rs' =>
          rw [List.scanl_cons] at ih ⊢
          rw [latchStep_true] at ih ⊢
          simpa [riseCount] using ih

theorem riseCount_scanl_false (targets : List String) :
    riseCount (targets.scanl latchStep false) =
      (if targets.any (fun r => decide (parsePath r = recognizedRoute))
        then 1 else 0) := by
  induction targets with
  | nil => rfl
  | cons r rs ih =>
      rw [List.scanl_cons]
      by_cases hr : parsePath r = recognizedRoute
      · have hstep : latchStep false r = true := by simp [latchStep, hr]
        rw [hstep]
        simp only [List.singleton_append]
        have hscan : riseCount (false :: rs.scanl latchStep true) =
            1 + riseCount (rs.scanl latchStep true) := by
          cases rs with
          | nil => rfl
          | cons r' rs' =>
              rw [List.scanl_cons, latchStep_true]
              simp [riseCount]
        rw [hscan, riseCount_scanl_true, List.any_cons]
        simp [hr]
      · have hstep : latchStep false r = false := by simp [latchStep, hr]
        rw [hstep]
        simp only [List.singleton_append]
        have hscan : riseCount (false :: rs.scanl latchStep false) =
            riseCount (rs.scanl latchStep false) := by
          cases rs with
          | nil => rfl
          | cons r' rs' =>
              rw [List.scanl_cons]
              simp [riseCount]
        rw [hscan, ih, List.any_cons]
        simp [hr]

/-! ## Listener-start / link-creation ordering -/

/-- Every link-creation call in the trace happens strictly after a
listener start. -/
def startBeforeLink (tr : List Ev) : Prop :=
  ∀ k : ℕ, tr[k]? = some Ev.linkCreate →
    ∃ j : ℕ, j < k ∧ tr[j]? = some Ev.listenerStart

/-- Executable check for `startBeforeLink`. -/
def sbAux (seen : Bool) : List Ev → Bool
  | [] => true
  | Ev.listenerStart :: tr => sbAux true tr
  | Ev.linkCreate :: tr => seen && sbAux seen tr
  | _ :: tr => sbAux seen tr

/-- Whether a listener start has been seen after the trace. -/
def sbSeen (seen : Bool) : List Ev → Bool
  | [] => seen
  | Ev.listenerStart :: tr => sbSeen true tr
  | _ :: tr => sbSeen seen tr

theorem sbAux_true (tr : List Ev) : sbAux true tr = true := by
  induction tr with
  | nil => rfl
  | cons e tr ih => cases e <;> simpa [sbAux] using ih

theorem sbAux_append (seen : Bool) (t1 t2 : List Ev) :
    sbAux seen (t1 ++ t2) = (sbAux seen t1 && sbAux (sbSeen seen t1) t2) := by
  induction t1 generalizing seen with
  | nil => simp [sbAux, sbSeen]
  | cons e t1 ih => cases e <;> simp [sbAux, sbSeen, ih, Bool.and_assoc]

theorem sbAux_sound (tr : List Ev) :
    ∀ seen : Bool, sbAux seen tr = true →
    ∀ k : ℕ, tr[k]? = some Ev.linkCreate →
      seen = true ∨ ∃ j : ℕ, j < k ∧ tr[j]? = some Ev.listenerStart := by
  induction tr with
  | nil => intro seen _ k hk; simp at hk
  | cons e tr ih =>
      intro seen hp k hk
      cases k with
      | zero =>
          simp only [List.getElem?_cons_zero, Option.some_inj] at hk
          subst hk
          simp only [sbAux, Bool.and_eq_true] at hp
          exact Or.inl hp.1
      | succ k =>
          simp only [List.getElem?_cons_succ] at hk
          cases e
          case listenerStart =>
              have hp' : sbAux true tr = true := hp
              exact Or.inr ⟨0, Nat.succ_pos k, by simp⟩
          case linkCreate =>
              simp only [sbAux, Bool.and_eq_true] at hp
              rcases ih seen hp.2 k hk with hseen | ⟨j, hj, hjv⟩
              · exact Or.inl hseen
              · exact Or.inr ⟨j + 1, Nat.succ_lt_succ hj, by simpa using hjv⟩
          all_goals (
            rcases ih seen hp k hk with hseen | ⟨j, hj, hjv⟩
            · exact Or.inl hseen
            · exact Or.inr ⟨j + 1, Nat.succ_lt_succ hj, by simpa using hjv⟩)

theorem delete_sb (name : String) (confirm : Bool) (s : St) (seen : Bool) :
    sbAux seen (delete_plaid_item name confirm s).1 = true := by
  unfold delete_plaid_item
  (repeat' split) <;> simp [sbAux]

theorem add_sb (name : String) (env : Env) (s : St) :
    sbAux false (add_plaid_item name env s).1 = true := by
  unfold add_plaid_item
  (repeat' split) <;>
    simp [sbAux, sbAux_append, sbAux_true, delete_sb]

theorem add_startBeforeLink (name : String) (env : Env) (s : St) :
    startBeforeLink (add_plaid_item name env s).1 := by
  intro k hk
  rcases sbAux_sound (add_plaid_item name env s).1 false (add_sb name env s)
      k hk with hseen | hex
  · simp at hseen
  · exact hex

/-! ## Concrete inputs used by witnesses and counterexamples -/

/-- A stored connection named `dup`. -/
def cDup : Connection := ⟨"i0", "dup", "d0"⟩

/-- A state holding `cDup` with its secret present, valid credentials. -/
def stDup : St :=
  ⟨[cDup], [("i0", "t0")], [], some ⟨some "a@b.c", some "0123456789"⟩⟩

/-- A state with no connections, valid credentials. -/
def stEmpty : St := ⟨[], [], [], some ⟨some "a@b.c", some "0123456789"⟩⟩

/-- A state whose stored profile is present but malformed. -/
def badCredsState : St := ⟨[], [], [], some ⟨some "no-at-sign", some "12ab"⟩⟩

/-- A state holding `cDup` whose secret is absent from the secret store. -/
def stOrphan : St :=
  ⟨[cDup], [], [], some ⟨some "a@b.c", some "0123456789"⟩⟩

/-- An environment where every confirmation is given and every external
call succeeds. -/
def envAll : Env :=
  ⟨true, true, true, "a@b.c", "0123456789", some ("u", "lt"), true,
   some (some "pt"), false, some ("at", "i1"), "7", "d1"⟩

/-- `envAll` with the duplicate-removal offer declined. -/
def envDecline : Env := { envAll with confirmsAdd := false }

/-! ## Claim theorems -/

/-- Claim C1, as stated, is false: an add run whose requested name collides
with an existing connection, and where the user confirms the removal,
passes through a reachable state (right after the embedded
`_delete_plaid_item` deletes the old secret and before it removes the old
record) in which a stored connection record's id has no secret-store
entry.  Here that state is the fold of the one-event prefix of the run's
trace. -/
theorem C1_counterexample :
    secretsCover stDup ∧
    (add_plaid_item "dup" envAll stDup).1.take 1 = [Ev.secretDel "i0"] ∧
    ¬ secretsCover (runTrace stDup ((add_plaid_item "dup" envAll stDup).1.take 1)) := by
  decide

/-- Claim C1 (amended): in every add run the secret-store entry is written
before the connection record is appended (every `connAppend` in the trace
is preceded by a `secretPut` of the same item id); and in every add run
that does not take the duplicate-removal path (no existing connection has
the requested name), every reachable state — the fold of every prefix of
the run's trace — keeps the invariant that each stored connection record's
id has a secret-store entry. -/
theorem C1_secret_before_record (name : String) (env : Env) (s : St) :
    putBeforeAppend (add_plaid_item name env s).1 ∧
    (s.connections.find? (fun c => decide (c.name = name)) = none →
      secretsCover s →
      ∀ n, secretsCover (runTrace s ((add_plaid_item name env s).1.take n))) :=
  ⟨putBeforeAppend_of_pbaAux (add_pba name env s),
   fun hf h n => preserve_take h (add_steps_cover name env s hf h) n⟩

/-- Witness for C1 at a concrete input: a run on an empty connection list
with all calls succeeding. -/
theorem C1_witness :
    putBeforeAppend (add_plaid_item "n" envAll stEmpty).1 ∧
    secretsCover (runTrace stEmpty ((add_plaid_item "n" envAll stEmpty).1.take 5)) :=
  ⟨(C1_secret_before_record "n" envAll stEmpty).1,
   (C1_secret_before_record "n" envAll stEmpty).2 (by decide) (by decide) 5⟩

/-- Claim C2: once the callback listener has been started inside an add
run, `server.stop()` runs on every exit path — the trace ends with the
`listenerStop` event no matter which outcome the run had. -/
theorem C2_listener_teardown (name : String) (env : Env) (s : St)
    (h : Ev.listenerStart ∈ (add_plaid_item name env s).1) :
    Ev.listenerStop ∈ (add_plaid_item name env s).1 ∧
    (add_plaid_item name env s).1.getLast? = some Ev.listenerStop := by
  have hg := add_trace_ends_with_stop name env s h
  exact ⟨List.mem_of_mem_getLast? hg, hg⟩

/-- Witness for C2 at a concrete input. -/
theorem C2_witness :
    Ev.listenerStop ∈ (add_plaid_item "n" envAll stEmpty).1 ∧
    (add_plaid_item "n" envAll stEmpty).1.getLast? = some Ev.listenerStop :=
  C2_listener_teardown "n" envAll stEmpty (by decide)

/-- Claim C3, as stated, is false: in a successful run the listener is
started (trace position 0) strictly before the hosted-link creation call
(trace position 1), not after it. -/
theorem C3_counterexample :
    (add_plaid_item "n" envAll stEmpty).1[0]? = some Ev.listenerStart ∧
    (add_plaid_item "n" envAll stEmpty).1[1]? = some Ev.linkCreate := by
  decide

/-- Claim C3 (amended): in every add run the callback listener is started
strictly before the hosted-link creation call; every `linkCreate` event in
the trace is preceded by a `listenerStart` event. -/
theorem C3_listener_before_link (name : String) (env : Env) (s : St) :
    startBeforeLink (add_plaid_item name env s).1 :=
  add_startBeforeLink name env s

/-- Claim C4: over any request sequence handled by the listener, the latch
(`_oauth_complete`) flips from false to true at most once, exactly once
when some request's parsed path is the recognized callback route, and a
signaled latch is never reset by further requests. -/
theorem C4_latch_transitions (targets : List String) :
    riseCount (latchStates targets) ≤ 1 ∧
    ((∃ r ∈ targets, parsePath r = recognizedRoute) →
      riseCount (latchStates targets) = 1) ∧
    (∀ more : List String, latchAfter true more = true) := by
  unfold latchStates
  rw [riseCount_scanl_false]
  refine ⟨?_, ?_, latchAfter_true⟩
  · split <;> omega
  · rintro ⟨r, hr, hpr⟩
    have hany : targets.any (fun r => decide (parsePath r = recognizedRoute)) = true := by
      rw [List.any_eq_true]
      exact ⟨r, hr, by simpa using hpr⟩
    simp [hany]

/-- Witness for C4 at a concrete request sequence containing a 404 path
and a matching callback request with query parameters. -/
theorem C4_witness :
    riseCount (latchStates ["/x", "/oauth-callback?a=1"]) ≤ 1 ∧
    riseCount (latchStates ["/x", "/oauth-callback?a=1"]) = 1 ∧
    latchAfter true ["/y"] = true :=
  ⟨(C4_latch_transitions ["/x", "/oauth-callback?a=1"]).1,
   (C4_latch_transitions ["/x", "/oauth-callback?a=1"]).2.1
     ⟨"/oauth-callback?a=1", by decide, by decide⟩,
   (C4_latch_transitions ["/x", "/oauth-callback?a=1"]).2.2 ["/y"]⟩

/-- Claim C5: in production mode, if the latch is never signaled the wait
returns false no later than `timeout + pollInterval` after the wait began;
if the latch is signaled from some time `t ≤ timeout` on, the wait
returns true no later than `t + pollInterval`. -/
theorem C5_wait_latency (sig : ℕ → Bool) (timeout : ℚ) :
    ((∀ k, sig k = false) → 0 ≤ timeout →
      (wait_for_callback false sig timeout).1 = false ∧
      (((wait_for_callback false sig timeout).2 : ℚ) * pollInterval ≤
        timeout + pollInterval)) ∧
    (∀ t : ℚ, 0 ≤ t → t ≤ timeout →
      (∀ k : ℕ, t ≤ (k : ℚ) * pollInterval → sig k = true) →
      (wait_for_callback false sig timeout).1 = true ∧
      (((wait_for_callback false sig timeout).2 : ℚ) * pollInterval ≤
        t + pollInterval)) := by
  constructor
  · intro hs hτ
    have h := waitAux_never sig timeout hs 0
      (by push_cast; nlinarith [pollInterval_pos])
    simpa [wait_for_callback] using h
  · intro t ht0 htτ hs
    have h := waitAux_signaled sig timeout t htτ hs 0
      (by push_cast; nlinarith [pollInterval_pos])
    simpa [wait_for_callback] using h

/-- Witness for C5: with no signal and a one-second timeout the loop ends
with false within one extra interval; with an immediately signaled latch it
ends with true within one interval of time zero. -/
theorem C5_witness :
    ((wait_for_callback false (fun _ => false) 1).1 = false ∧
      (((wait_for_callback false (fun _ => false) 1).2 : ℚ) * pollInterval ≤
        1 + pollInterval)) ∧
    ((wait_for_callback false (fun _ => true) 1).1 = true ∧
      (((wait_for_callback false (fun _ => true) 1).2 : ℚ) * pollInterval ≤
        0 + pollInterval)) :=
  ⟨(C5_wait_latency (fun _ => false) 1).1 (fun _ => rfl) (by norm_num),
   (C5_wait_latency (fun _ => true) 1).2 0 le_rfl (by norm_num)
     (fun _ _ => rfl)⟩

/-- Claim C6: both writers of the connection list — the add run and the
delete run — preserve uniqueness of the `name` field in every reachable
state (the fold of every trace prefix). -/
theorem C6_name_uniqueness (name : String) (env : Env) (confirm : Bool)
    (s : St) (h : namesUnique s) :
    (∀ n, namesUnique (runTrace s ((add_plaid_item name env s).1.take n))) ∧
    (∀ n, namesUnique (runTrace s ((delete_plaid_item name confirm s).1.take n))) :=
  ⟨fun n => preserve_take h (add_steps_names name env s h) n,
   fun n => preserve_take h (delete_steps_names name confirm s h) n⟩

/-- Witness for C6 at a concrete duplicate-name run. -/
theorem C6_witness :
    namesUnique (runTrace stDup ((add_plaid_item "dup" envAll stDup).1.take 4)) ∧
    namesUnique (runTrace stDup ((delete_plaid_item "dup" true stDup).1.take 1)) :=
  ⟨(C6_name_uniqueness "dup" envAll true stDup (by decide)).1 4,
   (C6_name_uniqueness "dup" envAll true stDup (by decide)).2 1⟩

/-- Claim C7: when the requested name already exists and the user declines
the offered removal, the add run aborts with no side effects: empty trace
(hence no mutation of the connection list, the secret store, or the
existing record), outcome `cancelled`, final state equal to the initial
one, and no listener start. -/
theorem C7_decline_no_side_effects (name : String) (env : Env) (s : St)
    (c : Connection)
    (hf : s.connections.find? (fun x => decide (x.name = name)) = some c)
    (hca : env.confirmsAdd = false) :
    add_plaid_item name env s = ([], .cancelled) ∧
    addState name env s = s ∧
    Ev.listenerStart ∉ (add_plaid_item name env s).1 := by
  have h1 : add_plaid_item name env s = ([], .cancelled) := by
    unfold add_plaid_item
    rw [hf]
    simp [hca]
  refine ⟨h1, ?_, ?_⟩
  · unfold addState
    rw [h1]
    rfl
  · rw [h1]
    simp

/-- Witness for C7 at a concrete input. -/
theorem C7_witness :
    add_plaid_item "dup" envDecline stDup = ([], .cancelled) ∧
    addState "dup" envDecline stDup = stDup ∧
    Ev.listenerStart ∉ (add_plaid_item "dup" envDecline stDup).1 :=
  C7_decline_no_side_effects "dup" envDecline stDup cDup (by decide) (by decide)

/-- Claim C8: removing a connection whose secret is absent from the secret
store reports the missing-secret error and leaves the connection list (and
everything else) unchanged — the delete-secret guard precedes the list
mutation. -/
theorem C8_delete_missing_secret (name : String) (confirm : Bool) (s : St)
    (c : Connection)
    (hf : s.connections.find? (fun x => decide (x.name = name)) = some c)
    (hcf : confirm = true)
    (habs : kvHas c.id s.secrets = false) :
    delete_plaid_item name confirm s = ([], .secretNotFound) ∧
    deleteState name confirm s = s := by
  have h1 : delete_plaid_item name confirm s = ([], .secretNotFound) := by
    unfold delete_plaid_item
    rw [hf]
    simp [hcf, habs]
  refine ⟨h1, ?_⟩
  unfold deleteState
  rw [h1]
  rfl

/-- Witness for C8 at a concrete input. -/
theorem C8_witness :
    delete_plaid_item "dup" true stOrphan = ([], .secretNotFound) ∧
    deleteState "dup" true stOrphan = stOrphan :=
  C8_delete_missing_secret "dup" true stOrphan cDup (by decide) rfl (by decide)

/-- Claim C9, as stated, is false: `_has_user_credentials` (the read-side
check used by every operation that reads the profile) accepts a stored
record whose email and phone are malformed under the setup-time validation
rules — it checks only that the keys are present. -/
theorem C9_counterexample :
    hasUserCredentials badCredsState = true ∧
    isValidEmail "no-at-sign" = false ∧
    isValidPhone "12ab" = false := by
  decide

/-- Claim C9 (amended): reads of the stored profile check only the
presence of the `email` and `phone` keys — any record with both keys
present is accepted regardless of format; format validation happens only
at setup time, whose retry loops store only values passing the email and
phone checks. -/
theorem C9_presence_not_validity :
    (∀ (s : St) (c : Creds), s.creds = some c → c.email.isSome = true →
      c.phone.isSome = true → hasUserCredentials s = true) ∧
    (∀ (emails phones : List String) (e p : String),
      setupStoredCreds emails phones = some (e, p) →
      isValidEmail e = true ∧ isValidPhone p = true) := by
  constructor
  · intro s c hc he hp
    unfold hasUserCredentials
    rw [hc]
    simp [he, hp]
  · intro emails phones e p h
    unfold setupStoredCreds at h
    cases he : emails.find? isValidEmail with
    | none => rw [he] at h; simp at h
    | some e' =>
        cases hp : phones.find? isValidPhone with
        | none => rw [he, hp] at h; simp at h
        | some p' =>
            rw [he, hp] at h
            simp only [Option.some_inj, Prod.mk.injEq] at h
            obtain ⟨rfl, rfl⟩ := h
            exact ⟨List.find?_some he, List.find?_some hp⟩

/-- Witness for C9 at concrete inputs: the malformed record is accepted by
the read, and the setup loop stores the first valid email and phone. -/
theorem C9_witness :
    hasUserCredentials badCredsState = true ∧
    (isValidEmail "a@b.c" = true ∧ isValidPhone "0123456789" = true) :=
  ⟨C9_presence_not_validity.1 badCredsState ⟨some "no-at-sign", some "12ab"⟩
     rfl rfl rfl,
   C9_presence_not_validity.2 ["x", "a@b.c"] ["12", "0123456789"]
     "a@b.c" "0123456789" (by decide)⟩

/-- Claim C10: for every timeout value, including zero and negative ones,
a latch already signaled when the wait begins makes `wait_for_callback`
return true — the signaled check precedes the elapsed-time check in every
polling iteration. -/
theorem C10_already_signaled (testMode : Bool) (sig : ℕ → Bool)
    (timeout : ℚ) (h : sig 0 = true) :
    (wait_for_callback testMode sig timeout).1 = true := by
  cases testMode with
  | true => rfl
  | false =>
      unfold wait_for_callback
      rw [waitAux]
      simp [h]

/-- Witness for C10 at a negative timeout with an already signaled latch. -/
theorem C10_witness :
    (wait_for_callback false (fun _ => true) (-5)).1 = true :=
  C10_already_signaled false (fun _ => true) (-5) rfl

/-- Witness for C3 at a concrete successful run. -/
theorem C3_witness :
    startBeforeLink (add_plaid_item "n" envAll stEmpty).1 :=
  C3_listener_before_link "n" envAll stEmpty

end Ttyf
